import Mathlib

/-!
# Verification of the swag type-resolution core

A shallow embedding of the swag repository's type-declaration data model
(`types.go`) together with the surrounding Symbol Registry / Schema Resolver /
Enum Extractor behaviour described by the specification (those components'
source files are not part of the provided sources; everything modelled from
the specification alone is marked as such in its doc comment).
-/

set_option autoImplicit false

namespace Swag

/-- An identifier node (`ast.Ident`): carries only its name string. -/
structure Ident where
  name : String
deriving DecidableEq, Repr

/-- A type-spec node (`ast.TypeSpec`).  The Go AST allows the `Name` field to
be nil, which we model with `Option`. -/
structure TypeSpec where
  name : Option Ident
deriving DecidableEq, Repr

/-- A routine declaration (`ast.FuncDecl`): only its name is consulted. -/
structure FuncDecl where
  name : String
deriving DecidableEq, Repr

/-- A declaration (`ast.Decl`).  `TypeSpecDef.TypeName` only distinguishes the
`*ast.FuncDecl` case from every other declaration kind. -/
inductive Decl where
  | funcDecl (f : FuncDecl)
  | otherDecl
deriving DecidableEq, Repr

/-- An `ast.File`: the `Name` field holds the file's package name
(`File.Name.Name` in `types.go`). -/
structure AstFile where
  name : String
deriving DecidableEq, Repr

/-- `TypeSpecDef` from `types.go`: the whole information of a typeSpec.
The nilable pointers `File`, `TypeSpec` and `ParentSpec` are `Option`s.
`aliasName` stands for the result of the helper `nameOverride(t.TypeSpec.Comment)`
(the helper itself is not among the provided sources; per the specification it
yields the declaration's explicit name-override string, empty if none). -/
structure TypeSpecDef where
  file : Option AstFile
  typeSpec : Option TypeSpec
  pkgPath : String
  parentSpec : Option Decl
  schemaName : String
  notUnique : Bool
  aliasName : String
deriving DecidableEq, Repr

/-- Modelled from the spec: the helper `ignoreNameOverride` consulted by
`TypeName` is not among the provided sources; it detects an explicit marker
character prefixed to the short name that makes canonicalization return the
short name unqualified (with the marker stripped).  Modelled as a leading
dollar sign. -/
def ignoreNameOverride (name : String) : Bool :=
  match name.data with
  | [] => false
  | c :: _ => c == '$'

/-- The sanitization applied to a colliding declaration's package path inside
`TypeSpecDef.TypeName` (`strings.Map` over the runes of `t.PkgPath`): every
path separator and dot becomes an underscore. -/
def sanitizePkgPath (p : String) : String :=
  String.mk (p.data.map fun r => if r = '\\' ∨ r = '/' ∨ r = '.' then '_' else r)

/-- Modelled from the spec: the helper `fullTypeName` called by `TypeName` is
not among the provided sources; canonical names in the specification and the
test corpus are the components joined with a dot
(`unit.routine.ShortName`, `sanitized-unit-path.ShortName`). -/
def fullTypeName : List String → String
  | [] => ""
  | [n] => n
  | n :: rest => n ++ "." ++ fullTypeName rest

/-- `TypeSpecDef.Name` from `types.go`: the declared identifier when both the
`TypeSpec` and its `Name` node are present, the empty string otherwise. -/
def TypeSpecDef.name (t : TypeSpecDef) : String :=
  match t.typeSpec with
  | some ts =>
    match ts.name with
    | some id => id.name
    | none => ""
  | none => ""

/-- `TypeSpecDef.TypeName` from `types.go`.  The Go code dereferences
`t.TypeSpec.Name` unconditionally (a nil pointer would panic), so the result
is modelled as an `Option`, `none` standing for the panic.  Otherwise:
a short name carrying the ignore-override marker is returned with the marker
stripped; a colliding (`NotUnique`) declaration contributes its sanitized
package path, a non-colliding one with a file its file's package name; a
parent routine contributes its name; the short name comes last, and the
components are dot-joined. -/
def TypeSpecDef.typeName (t : TypeSpecDef) : Option String :=
  match t.typeSpec with
  | none => none
  | some ts =>
    match ts.name with
    | none => none
    | some id =>
      if ignoreNameOverride id.name then
        some (id.name.drop 1)
      else
        let basePart : List String :=
          if t.notUnique then
            [sanitizePkgPath t.pkgPath]
          else
            match t.file with
            | some f => [f.name]
            | none => []
        let scopePart : List String :=
          match t.parentSpec with
          | some (Decl.funcDecl pf) => [pf.name]
          | _ => []
        some (fullTypeName (basePart ++ scopePart ++ [id.name]))

/-- `TypeSpecDef.Alias` from `types.go` (the underlying comment-scanning
helper being modelled by the stored `aliasName`, see `TypeSpecDef`). -/
def TypeSpecDef.alias (t : TypeSpecDef) : String :=
  t.aliasName

/-- `TypeSpecDef.SetSchemaName` from `types.go`: a non-empty alias becomes the
schema name; otherwise the canonical `TypeName` does.  `Alias` dereferences
`t.TypeSpec`, so a missing `TypeSpec` is the panic case (`none`). -/
def TypeSpecDef.setSchemaName (t : TypeSpecDef) : Option TypeSpecDef :=
  match t.typeSpec with
  | none => none
  | some _ =>
    if t.alias ≠ "" then
      some { t with schemaName := t.alias }
    else
      t.typeName.map fun n => { t with schemaName := n }

/-- The declaration's short name, when present. -/
def TypeSpecDef.shortName (t : TypeSpecDef) : Option String :=
  match t.typeSpec with
  | some ts => ts.name.map Ident.name
  | none => none

/-- Modelled from the spec: the Symbol Registry (its source file is not among
the provided sources) groups declarations by short name and sets the
`collision` flag on a declaration exactly when more than one declaration in
the store shares its short name. -/
def registryMark (ds : List TypeSpecDef) (d : TypeSpecDef) : TypeSpecDef :=
  if 2 ≤ (ds.countP fun e => e.shortName = d.shortName) then
    { d with notUnique := true }
  else
    { d with notUnique := false }

/-- Modelled from the spec: the registry's canonicalization pass over a
declaration store — every declaration receives its collision flag and is then
canonicalized by `TypeName`. -/
def markCollisions (ds : List TypeSpecDef) : List TypeSpecDef :=
  ds.map (registryMark ds)

/-- Modelled from the spec: the output mapping from canonical schema name to
declaration, one entry per declaration that canonicalizes. -/
def defsOf (ds : List TypeSpecDef) : List (String × TypeSpecDef) :=
  ds.filterMap fun d => d.typeName.map fun n => (n, d)

example : sanitizePkgPath "github.com/x/web" = "github_com_x_web" := by decide

example :
    fullTypeName ["model", "TestFuncDecl", "Test"] = "model.TestFuncDecl.Test" := by
  decide

/-- A top-level declaration of type `Pet` in package `web`, the only
declaration of that short name in its store. -/
def petDecl : TypeSpecDef :=
  { file := some ⟨"web"⟩
    typeSpec := some ⟨some ⟨"Pet"⟩⟩
    pkgPath := "github.com/x/web"
    parentSpec := none
    schemaName := ""
    notUnique := false
    aliasName := "" }

example : (registryMark [petDecl] petDecl).typeName = some "web.Pet" := by decide

/-- C10: the `Name` accessor is total: it returns the declared identifier when
both the `TypeSpec` and its `Name` node are present, and the empty string
(rather than failing) when the `TypeSpec` is absent. -/
theorem name_accessor_total :
    (∀ (t : TypeSpecDef) (ts : TypeSpec) (id : Ident),
      t.typeSpec = some ts → ts.name = some id → t.name = id.name) ∧
    (∀ t : TypeSpecDef, t.typeSpec = none → t.name = "") := by
  constructor
  · intro t ts id hts hid
    simp [TypeSpecDef.name, hts, hid]
  · intro t ht
    simp [TypeSpecDef.name, ht]

/-- Witness for C10 at concrete inputs: a declaration with both nodes present
and one with an absent `TypeSpec`. -/
theorem name_accessor_total_witness :
    petDecl.name = "Pet" ∧
    TypeSpecDef.name
      { file := none, typeSpec := none, pkgPath := "", parentSpec := none,
        schemaName := "", notUnique := false, aliasName := "" } = "" :=
  ⟨name_accessor_total.1 petDecl ⟨some ⟨"Pet"⟩⟩ ⟨"Pet"⟩ rfl rfl,
   name_accessor_total.2 _ rfl⟩

/-- C4: a declaration with a non-empty name-override gets exactly the override
string as its schema name — independently of its collision flag, file, package
path and enclosing scope, no qualification is applied. -/
theorem schemaName_alias_wins (t : TypeSpecDef) (ts : TypeSpec)
    (hts : t.typeSpec = some ts) (halias : t.alias ≠ "") :
    t.setSchemaName = some { t with schemaName := t.alias } := by
  simp [TypeSpecDef.setSchemaName, hts, halias]

/-- Witness for C4: a colliding, routine-scoped declaration with alias
`Student` gets schema name exactly `Student`. -/
theorem schemaName_alias_wins_witness :
    TypeSpecDef.setSchemaName
      { file := some ⟨"api"⟩, typeSpec := some ⟨some ⟨"Child"⟩⟩,
        pkgPath := "a/b.c", parentSpec := some (Decl.funcDecl ⟨"Fun"⟩),
        schemaName := "", notUnique := true, aliasName := "Student" } =
    some
      { file := some ⟨"api"⟩, typeSpec := some ⟨some ⟨"Child"⟩⟩,
        pkgPath := "a/b.c", parentSpec := some (Decl.funcDecl ⟨"Fun"⟩),
        schemaName := "Student", notUnique := true, aliasName := "Student" } :=
  schemaName_alias_wins _ _ rfl (by decide)

/-- C1 counterexample: `petDecl` has the only occurrence of short name `Pet`
in its store, is not declared inside a routine and has no name-override, yet
its canonical name is the package-qualified `web.Pet`, not the short name
`Pet` alone. -/
theorem unique_name_counterexample :
    (registryMark [petDecl] petDecl).notUnique = false ∧
    petDecl.parentSpec = none ∧ petDecl.alias = "" ∧
    (registryMark [petDecl] petDecl).typeName = some "web.Pet" ∧
    "web.Pet" ≠ ("Pet" : String) := by
  refine ⟨by decide, rfl, rfl, by decide, by decide⟩

/-- C1 amended: a declaration whose short name is unique across the store,
declared at top level with no ignore-marker, is canonicalized as
`packageName.ShortName` — its file's package name, a dot, and the short name;
it is the short name alone only when the declaration has no attached file. -/
theorem unique_name_package_qualified (ds : List TypeSpecDef)
    (d : TypeSpecDef) (ts : TypeSpec) (id : Ident)
    (_hmem : d ∈ ds)
    (hcount : (ds.countP fun e => e.shortName = d.shortName) = 1)
    (hts : d.typeSpec = some ts) (hid : ts.name = some id)
    (hovr : ignoreNameOverride id.name = false)
    (hpar : d.parentSpec = none) :
    (∀ f : AstFile, d.file = some f →
      (registryMark ds d).typeName = some (f.name ++ "." ++ id.name)) ∧
    (d.file = none → (registryMark ds d).typeName = some id.name) := by
  have hmark : registryMark ds d = { d with notUnique := false } := by
    unfold registryMark
    rw [hcount]
    simp
  constructor
  · intro f hf
    rw [hmark]
    simp [TypeSpecDef.typeName, hts, hid, hovr, hf, hpar, fullTypeName]
  · intro hf
    rw [hmark]
    simp [TypeSpecDef.typeName, hts, hid, hovr, hf, hpar, fullTypeName]

/-- Witness for C1 amended: applied to the singleton store holding `petDecl`,
whose short name `Pet` therefore occurs exactly once. -/
theorem unique_name_package_qualified_witness :
    (registryMark [petDecl] petDecl).typeName = some ("web" ++ "." ++ "Pet") :=
  (unique_name_package_qualified [petDecl] petDecl ⟨some ⟨"Pet"⟩⟩ ⟨"Pet"⟩
    (by decide) (by decide) rfl rfl (by decide) rfl).1 ⟨"web"⟩ rfl

theorem length_dot_string : ("." : String).length = 1 := rfl

/-- C3: a declaration scoped inside routine `r` is canonicalized with the
routine name between the unit component and the short name
(`unit.routine.ShortName`); it never collides with a top-level declaration of
the same short name in the same file — the two canonical names are distinct
and the canonical-name-keyed output holds both declarations. -/
theorem scoped_shadowing (d1 d2 : TypeSpecDef) (ts1 ts2 : TypeSpec)
    (id : Ident) (f : AstFile) (r : FuncDecl)
    (h1s : d1.typeSpec = some ts1) (h1n : ts1.name = some id)
    (h2s : d2.typeSpec = some ts2) (h2n : ts2.name = some id)
    (hovr : ignoreNameOverride id.name = false)
    (hf1 : d1.file = some f) (hf2 : d2.file = some f)
    (hu1 : d1.notUnique = false) (hu2 : d2.notUnique = false)
    (hp1 : d1.parentSpec = none) (hp2 : d2.parentSpec = some (Decl.funcDecl r)) :
    d2.typeName = some (f.name ++ "." ++ r.name ++ "." ++ id.name) ∧
    d1.typeName = some (f.name ++ "." ++ id.name) ∧
    d2.typeName ≠ d1.typeName ∧
    (defsOf [d1, d2]).lookup (f.name ++ "." ++ id.name) = some d1 ∧
    (defsOf [d1, d2]).lookup (f.name ++ "." ++ r.name ++ "." ++ id.name) =
      some d2 := by
  have h2 : d2.typeName = some (f.name ++ "." ++ r.name ++ "." ++ id.name) := by
    simp [TypeSpecDef.typeName, h2s, h2n, hovr, hf2, hu2, hp2, fullTypeName,
      String.append_assoc]
  have h1 : d1.typeName = some (f.name ++ "." ++ id.name) := by
    simp [TypeSpecDef.typeName, h1s, h1n, hovr, hf1, hu1, hp1, fullTypeName]
  have hne : (f.name ++ "." ++ r.name ++ "." ++ id.name) ≠
      (f.name ++ "." ++ id.name) := by
    intro h
    have hlen := congrArg String.length h
    simp only [String.length_append, length_dot_string] at hlen
    omega
  refine ⟨h2, h1, ?_, ?_, ?_⟩
  · rw [h1, h2]
    simp [hne]
  · simp [defsOf, h1, h2, List.lookup]
  · have hbf : ((f.name ++ "." ++ r.name ++ "." ++ id.name) ==
        (f.name ++ "." ++ id.name)) = false := by
      simp only [beq_eq_false_iff_ne, ne_eq]
      exact hne
    simp [defsOf, h1, h2, List.lookup, hbf]

/-- Witness for C3, matching the function-scoped-struct test: package `main`,
routine `Fun`, short name `response`; canonical names `main.response` and
`main.Fun.response`. -/
theorem scoped_shadowing_witness :
    TypeSpecDef.typeName
      { file := some ⟨"main"⟩, typeSpec := some ⟨some ⟨"response"⟩⟩,
        pkgPath := "main", parentSpec := some (Decl.funcDecl ⟨"Fun"⟩),
        schemaName := "", notUnique := false, aliasName := "" } =
      some ("main" ++ "." ++ "Fun" ++ "." ++ "response") :=
  (scoped_shadowing
    { file := some ⟨"main"⟩, typeSpec := some ⟨some ⟨"response"⟩⟩,
      pkgPath := "main", parentSpec := none,
      schemaName := "", notUnique := false, aliasName := "" }
    { file := some ⟨"main"⟩, typeSpec := some ⟨some ⟨"response"⟩⟩,
      pkgPath := "main", parentSpec := some (Decl.funcDecl ⟨"Fun"⟩),
      schemaName := "", notUnique := false, aliasName := "" }
    ⟨some ⟨"response"⟩⟩ ⟨some ⟨"response"⟩⟩ ⟨"response"⟩ ⟨"main"⟩ ⟨"Fun"⟩
    rfl rfl rfl rfl (by decide) rfl rfl rfl rfl rfl rfl).1

/-- A `Pet` declaration in unit `a/b`. -/
def petDeclSlash : TypeSpecDef :=
  { file := some ⟨"b"⟩
    typeSpec := some ⟨some ⟨"Pet"⟩⟩
    pkgPath := "a/b"
    parentSpec := none
    schemaName := ""
    notUnique := false
    aliasName := "" }

/-- A `Pet` declaration in the distinct unit `a.b`. -/
def petDeclDot : TypeSpecDef :=
  { file := some ⟨"b"⟩
    typeSpec := some ⟨some ⟨"Pet"⟩⟩
    pkgPath := "a.b"
    parentSpec := none
    schemaName := ""
    notUnique := false
    aliasName := "" }

theorem sanitize_no_dot (p : String) : '.' ∉ (sanitizePkgPath p).data := by
  intro h
  rw [sanitizePkgPath] at h
  simp only [List.mem_map] at h
  obtain ⟨c, _, hc⟩ := h
  by_cases h1 : c = '\\' ∨ c = '/' ∨ c = '.'
  · simp [h1] at hc
  · simp [h1] at hc
    exact h1 (Or.inr (Or.inr hc))

theorem append_cons_dot_inj (a : List Char) :
    ∀ (b x y : List Char), '.' ∉ a → '.' ∉ b →
      a ++ '.' :: x = b ++ '.' :: y → a = b := by
  induction a with
  | nil =>
    intro b x y _ hb h
    cases b with
    | nil => rfl
    | cons d ds =>
      simp only [List.nil_append, List.cons_append, List.cons.injEq] at h
      exact absurd (h.1 ▸ List.mem_cons_self d ds) (h.1 ▸ hb)
  | cons c cs ih =>
    intro b x y ha hb h
    cases b with
    | nil =>
      simp only [List.cons_append, List.nil_append, List.cons.injEq] at h
      exact absurd (h.1 ▸ List.mem_cons_self c cs) (h.1 ▸ ha)
    | cons d ds =>
      simp only [List.cons_append, List.cons.injEq] at h
      have hcs := ih ds x y (fun hm => ha (List.mem_cons_of_mem c hm))
        (fun hm => hb (List.mem_cons_of_mem d hm)) h.2
      rw [h.1, hcs]

theorem sanitized_head_inj {p1 p2 s1 s2 : String}
    (h : sanitizePkgPath p1 ++ "." ++ s1 = sanitizePkgPath p2 ++ "." ++ s2) :
    sanitizePkgPath p1 = sanitizePkgPath p2 := by
  have hd := congrArg String.data h
  simp only [String.data_append, List.append_assoc, List.singleton_append] at hd
  have hdata : (sanitizePkgPath p1).data = (sanitizePkgPath p2).data :=
    append_cons_dot_inj _ _ _ _ (sanitize_no_dot p1) (sanitize_no_dot p2) hd
  exact congrArg String.mk hdata

/-- C2 counterexample: the two `Pet` declarations live in distinct units
(`a/b` versus `a.b`) and are both marked colliding, yet sanitization conflates
the unit paths and both canonicalize to the same name `a_b.Pet` — the
canonical names are not pairwise distinct. -/
theorem collision_names_counterexample :
    petDeclSlash.pkgPath ≠ petDeclDot.pkgPath ∧
    (registryMark [petDeclSlash, petDeclDot] petDeclSlash).notUnique = true ∧
    (registryMark [petDeclSlash, petDeclDot] petDeclDot).notUnique = true ∧
    (registryMark [petDeclSlash, petDeclDot] petDeclSlash).typeName =
      some "a_b.Pet" ∧
    (registryMark [petDeclSlash, petDeclDot] petDeclSlash).typeName =
      (registryMark [petDeclSlash, petDeclDot] petDeclDot).typeName := by
  refine ⟨by decide, by decide, by decide, by decide, by decide⟩

/-- C2 amended: declarations sharing a short name are each marked colliding
and canonicalized as `sanitized-unit-path.ShortName` (separators and dots
become underscores); the canonical names are pairwise distinct whenever the
sanitized unit paths are pairwise distinct (sanitization can conflate unit
paths that differ only in the characters `/`, `\` and `.`). -/
theorem collision_promotion (ds : List TypeSpecDef)
    (d1 d2 : TypeSpecDef) (ts1 ts2 : TypeSpec) (id : Ident)
    (_hmem1 : d1 ∈ ds) (_hmem2 : d2 ∈ ds)
    (h1s : d1.typeSpec = some ts1) (h1n : ts1.name = some id)
    (h2s : d2.typeSpec = some ts2) (h2n : ts2.name = some id)
    (hshort : d1.shortName = d2.shortName)
    (hovr : ignoreNameOverride id.name = false)
    (hp1 : d1.parentSpec = none) (hp2 : d2.parentSpec = none)
    (hc1 : 2 ≤ (ds.countP fun e => e.shortName = d1.shortName))
    (hsan : sanitizePkgPath d1.pkgPath ≠ sanitizePkgPath d2.pkgPath) :
    (registryMark ds d1).notUnique = true ∧
    (registryMark ds d2).notUnique = true ∧
    (registryMark ds d1).typeName =
      some (sanitizePkgPath d1.pkgPath ++ "." ++ id.name) ∧
    (registryMark ds d2).typeName =
      some (sanitizePkgPath d2.pkgPath ++ "." ++ id.name) ∧
    (registryMark ds d1).typeName ≠ (registryMark ds d2).typeName := by
  have hc2 : 2 ≤ (ds.countP fun e => e.shortName = d2.shortName) := by
    simp only [← hshort]
    exact hc1
  have hm1 : registryMark ds d1 = { d1 with notUnique := true } := by
    unfold registryMark
    rw [if_pos hc1]
  have hm2 : registryMark ds d2 = { d2 with notUnique := true } := by
    unfold registryMark
    rw [if_pos hc2]
  have ht1 : (registryMark ds d1).typeName =
      some (sanitizePkgPath d1.pkgPath ++ "." ++ id.name) := by
    rw [hm1]
    simp [TypeSpecDef.typeName, h1s, h1n, hovr, hp1, fullTypeName]
  have ht2 : (registryMark ds d2).typeName =
      some (sanitizePkgPath d2.pkgPath ++ "." ++ id.name) := by
    rw [hm2]
    simp [TypeSpecDef.typeName, h2s, h2n, hovr, hp2, fullTypeName]
  refine ⟨by rw [hm1], by rw [hm2], ht1, ht2, ?_⟩
  rw [ht1, ht2]
  intro h
  exact hsan (sanitized_head_inj (Option.some.inj h))

/-- A `Pet` declaration in unit `github.com/x/web`. -/
def petDeclGithub : TypeSpecDef :=
  { petDeclSlash with pkgPath := "github.com/x/web" }

/-- A `Pet` declaration in unit `gitlab.com/y/store`. -/
def petDeclGitlab : TypeSpecDef :=
  { petDeclDot with pkgPath := "gitlab.com/y/store" }

/-- Witness for C2 amended: the two `Pet` declarations in units
`github.com/x/web` and `gitlab.com/y/store` get distinct canonical names. -/
theorem collision_promotion_witness :
    (registryMark [petDeclGithub, petDeclGitlab] petDeclGithub).typeName ≠
    (registryMark [petDeclGithub, petDeclGitlab] petDeclGitlab).typeName :=
  (collision_promotion [petDeclGithub, petDeclGitlab] petDeclGithub
    petDeclGitlab ⟨some ⟨"Pet"⟩⟩ ⟨some ⟨"Pet"⟩⟩ ⟨"Pet"⟩
    (by decide) (by decide) rfl rfl rfl rfl (by decide) (by decide) rfl rfl
    (by decide) (by decide)).2.2.2.2

/-- A synthesized schema fragment (spec data model): scalar kinds, arrays,
string-keyed maps (`additionalProperties`, `objectAny` accepting any value
shape), references to a canonical name, and the empty untyped schema produced
for interface/any. -/
inductive Schema where
  | scalar (kind : String)
  | array (items : Schema)
  | objectOf (additional : Schema)
  | objectAny
  | refTo (target : String)
  | emptySchema
deriving DecidableEq, Repr

/-- A type expression as consumed by the Schema Resolver (spec data model):
scalar, named reference, pointer, slice, string-keyed map, interface/any. -/
inductive TypeExpr where
  | scalar (kind : String)
  | named (n : String)
  | ptr (te : TypeExpr)
  | sliceOf (te : TypeExpr)
  | mapOf (value : TypeExpr)
  | anyType
deriving DecidableEq, Repr

/-- Modelled from the spec: the primitive-name table used by the resolver's
scalar case (the Go primitive names mapped onto string/integer/number/boolean;
formats elided). -/
def primitiveTypes : List (String × String) :=
  [("string", "string"), ("int", "integer"), ("int8", "integer"),
   ("int16", "integer"), ("int32", "integer"), ("int64", "integer"),
   ("uint", "integer"), ("uint8", "integer"), ("uint16", "integer"),
   ("uint32", "integer"), ("uint64", "integer"), ("byte", "integer"),
   ("rune", "integer"), ("float32", "number"), ("float64", "number"),
   ("bool", "boolean"), ("integer", "integer"), ("number", "number"),
   ("boolean", "boolean")]

/-- Modelled from the spec: resolution of a bare type name after any override
substitution.  Primitive names map to scalar schemas; a name registered in the
Symbol Registry resolves to a reference to its canonical schema; any other
name is the fatal UnresolvedReference error, reported with the offending
type name. -/
def baseResolve (n : String) (reg : List String) :
    Except String (Option Schema) :=
  match primitiveTypes.lookup n with
  | some k => .ok (some (.scalar k))
  | none =>
    if n ∈ reg then .ok (some (.refTo n))
    else .error ("cannot find type definition: " ++ n)

/-- Modelled from the spec: `getTypeSchema` — the Override Table is consulted
before resolution; the empty replacement is the elide marker and signals
"omit this property" (`ok none`) rather than a schema or an error; a
non-empty replacement is resolved in place of the original name (the
replacement is not looked up in the Override Table again); a name with no
override entry is resolved directly. -/
def getTypeSchema (n : String) (reg : List String)
    (ov : List (String × String)) : Except String (Option Schema) :=
  match ov.lookup n with
  | some repl => if repl = "" then .ok none else baseResolve repl reg
  | none => baseResolve n reg

/-- The schema emitted for a string-keyed map with the given value schema:
an elided or untyped value degrades to "accepts anything". -/
def mapSchema : Option Schema → Schema
  | some Schema.emptySchema => Schema.objectAny
  | some s => Schema.objectOf s
  | none => Schema.objectAny

/-- Modelled from the spec: the Schema Resolver's structural recursion over a
type expression — a pointer resolves to exactly the schema of its pointee, a
slice wraps its item schema in an array, a string-keyed map carries its value
schema as `additionalProperties`, interface/any is the empty schema. -/
def resolveExpr (reg : List String) (ov : List (String × String)) :
    TypeExpr → Except String (Option Schema)
  | .scalar k => .ok (some (.scalar k))
  | .named n => getTypeSchema n reg ov
  | .ptr te => resolveExpr reg ov te
  | .sliceOf te => (resolveExpr reg ov te).map (Option.map Schema.array)
  | .mapOf v => (resolveExpr reg ov v).map (fun o => some (mapSchema o))
  | .anyType => .ok (some .emptySchema)

/-- Sibling metadata a composite field may carry that is not expressible on a
bare `$ref` node: the read-only directive and the description text. -/
structure FieldMeta where
  readOnly : Bool
  description : String
deriving DecidableEq, Repr

/-- Whether a field carries no sibling metadata. -/
def FieldMeta.isEmpty (m : FieldMeta) : Bool :=
  !m.readOnly && m.description == ""

/-- An emitted property node: a schema with its metadata attached directly, a
bare `$ref`, or an `allOf` wrapper holding a single ref with the metadata on
the wrapper object. -/
inductive PropNode where
  | direct (s : Schema) (m : FieldMeta)
  | bareRef (target : String)
  | wrappedRef (target : String) (m : FieldMeta)
deriving DecidableEq, Repr

/-- Modelled from the spec: the wrapper-vs-direct decision — a field that
resolved to a reference is emitted as the bare ref exactly when it carries no
sibling metadata, and otherwise as an `allOf` wrapper around the single ref
with the metadata attached to the wrapper; non-reference schemas take their
metadata directly. -/
def emitProperty (s : Schema) (m : FieldMeta) : PropNode :=
  match s with
  | .refTo target => if m.isEmpty then .bareRef target else .wrappedRef target m
  | s => .direct s m

/-- Modelled from the spec: a composite field's property synthesis — resolve
the field's type expression, then apply the wrapper decision (an elided field
stays elided). -/
def fieldProperty (reg : List String) (ov : List (String × String))
    (te : TypeExpr) (m : FieldMeta) : Except String (Option PropNode) :=
  (resolveExpr reg ov te).map (Option.map fun s => emitProperty s m)

/-- Modelled from the spec: a field's membership in the owner's
required-property set — an explicit required directive is decisive, and
otherwise required-by-default applies only to non-pointer fields. -/
def fieldRequired (requiredByDefault : Bool) (explicitReq : Option Bool)
    (isPtrField : Bool) : Bool :=
  match explicitReq with
  | some b => b
  | none => requiredByDefault && !isPtrField

theorem mem_of_lookup_eq_some (l : List (String × String)) (n v : String)
    (h : l.lookup n = some v) : (n, v) ∈ l := by
  induction l with
  | nil => simp [List.lookup] at h
  | cons p ps ih =>
    obtain ⟨k, b⟩ := p
    rw [List.lookup] at h
    cases hk : n == k with
    | true =>
      simp only [hk] at h
      have hkn : n = k := eq_of_beq hk
      rw [hkn, Option.some.inj h]
      exact List.mem_cons_self _ _
    | false =>
      simp only [hk] at h
      exact List.mem_cons_of_mem _ (ih h)

/-- Every override replacement is resolvable: the elide marker, a primitive
name, or a registered name. -/
abbrev WellFormedOverrides (ov : List (String × String))
    (reg : List String) : Prop :=
  ∀ p ∈ ov, p.2 = "" ∨ (primitiveTypes.lookup p.2).isSome = true ∨ p.2 ∈ reg

/-- C7: resolving a named (non-primitive) type reference fails exactly when
the name is neither registered nor an Override Table key; the failure is
reported as `cannot find type definition: <name>`; an override target
resolves to its replacement's schema instead of an error. -/
theorem unresolved_reference_iff (n : String) (reg : List String)
    (ov : List (String × String))
    (hprim : primitiveTypes.lookup n = none)
    (hwf : WellFormedOverrides ov reg) :
    ((∃ e, getTypeSchema n reg ov = .error e) ↔
      (n ∉ reg ∧ ov.lookup n = none)) ∧
    (n ∉ reg → ov.lookup n = none →
      getTypeSchema n reg ov = .error ("cannot find type definition: " ++ n)) ∧
    (∀ repl, ov.lookup n = some repl → repl ≠ "" →
      getTypeSchema n reg ov = baseResolve repl reg ∧
      ∃ s, getTypeSchema n reg ov = .ok s) := by
  have hbase : baseResolve n reg =
      if n ∈ reg then .ok (some (.refTo n))
      else .error ("cannot find type definition: " ++ n) := by
    simp only [baseResolve, hprim]
  refine ⟨?_, ?_, ?_⟩
  · constructor
    · rintro ⟨e, he⟩
      cases hov : ov.lookup n with
      | none =>
        simp only [getTypeSchema, hov] at he
        rw [hbase] at he
        by_cases hr : n ∈ reg
        · rw [if_pos hr] at he
          simp at he
        · exact ⟨hr, rfl⟩
      | some repl =>
        exfalso
        simp only [getTypeSchema, hov] at he
        by_cases h0 : repl = ""
        · rw [if_pos h0] at he
          simp at he
        · rw [if_neg h0] at he
          rcases hwf _ (mem_of_lookup_eq_some ov n repl hov) with h0' | hp | hr
          · exact h0 h0'
          · have hp' : (primitiveTypes.lookup repl).isSome = true := hp
            rcases hrepl : primitiveTypes.lookup repl with _ | k
            · rw [hrepl] at hp'
              simp at hp'
            · simp only [baseResolve, hrepl] at he
              simp at he
          · have hr' : repl ∈ reg := hr
            rcases hrepl : primitiveTypes.lookup repl with _ | k
            · simp only [baseResolve, hrepl, if_pos hr'] at he
              simp at he
            · simp only [baseResolve, hrepl] at he
              simp at he
    · rintro ⟨hr, hov⟩
      refine ⟨"cannot find type definition: " ++ n, ?_⟩
      simp only [getTypeSchema, hov]
      rw [hbase, if_neg hr]
  · intro hr hov
    simp only [getTypeSchema, hov]
    rw [hbase, if_neg hr]
  · intro repl hov hne
    have heq : getTypeSchema n reg ov = baseResolve repl reg := by
      simp only [getTypeSchema, hov]
      rw [if_neg hne]
    refine ⟨heq, ?_⟩
    rcases hwf _ (mem_of_lookup_eq_some ov n repl hov) with h0 | hp | hr
    · exact absurd h0 hne
    · have hp' : (primitiveTypes.lookup repl).isSome = true := hp
      rcases hrepl : primitiveTypes.lookup repl with _ | k
      · rw [hrepl] at hp'
        simp at hp'
      · exact ⟨some (.scalar k), by rw [heq]; simp only [baseResolve, hrepl]⟩
    · have hr' : repl ∈ reg := hr
      rcases hrepl : primitiveTypes.lookup repl with _ | k
      · exact ⟨some (.refTo repl),
          by rw [heq]; simp only [baseResolve, hrepl, if_pos hr']⟩
      · exact ⟨some (.scalar k), by rw [heq]; simp only [baseResolve, hrepl]⟩

/-- Witness for C7, matching the override test: with override table
`sql.NullString → string` and an empty registry, `sql.NullInt64` fails with
`cannot find type definition: sql.NullInt64` while `sql.NullString` resolves
to its replacement's schema. -/
theorem unresolved_reference_iff_witness :
    getTypeSchema "sql.NullInt64" []
      [("sql.NullString", "string")] =
      .error ("cannot find type definition: " ++ "sql.NullInt64") ∧
    getTypeSchema "sql.NullString" []
      [("sql.NullString", "string")] = baseResolve "string" [] :=
  ⟨(unresolved_reference_iff "sql.NullInt64" [] [("sql.NullString", "string")]
      (by decide) (by decide)).2.1 (by decide) (by decide),
   ((unresolved_reference_iff "sql.NullString" [] [("sql.NullString", "string")]
      (by decide) (by decide)).2.2 "string" (by decide) (by decide)).1⟩

/-- C5: a field that is a plain named-type reference resolves to the bare ref
property exactly when it carries no sibling metadata, and to an `allOf`
wrapper holding the single ref with the metadata on the wrapper whenever it
does. -/
theorem ref_wrapper_decision (n : String) (reg : List String)
    (ov : List (String × String)) (m : FieldMeta)
    (hreg : n ∈ reg) (hov : ov.lookup n = none)
    (hprim : primitiveTypes.lookup n = none) :
    (m.isEmpty = true →
      fieldProperty reg ov (.named n) m = .ok (some (.bareRef n))) ∧
    (m.isEmpty = false →
      fieldProperty reg ov (.named n) m = .ok (some (.wrappedRef n m))) := by
  have hres : resolveExpr reg ov (.named n) = .ok (some (.refTo n)) := by
    simp only [resolveExpr, getTypeSchema, hov, baseResolve, hprim, if_pos hreg]
  constructor
  · intro hm
    simp [fieldProperty, hres, emitProperty, hm, Except.map]
  · intro hm
    simp [fieldProperty, hres, emitProperty, hm, Except.map]

/-- Witness for C5, matching the allOf test: a read-only `Teacher` reference
is wrapped, a plain `Teacher` reference stays a bare ref. -/
theorem ref_wrapper_decision_witness :
    fieldProperty ["Teacher"] [] (.named "Teacher") ⟨false, ""⟩ =
      .ok (some (.bareRef "Teacher")) ∧
    fieldProperty ["Teacher"] [] (.named "Teacher") ⟨true, ""⟩ =
      .ok (some (.wrappedRef "Teacher" ⟨true, ""⟩)) :=
  ⟨(ref_wrapper_decision "Teacher" ["Teacher"] [] ⟨false, ""⟩
      (by decide) (by decide) (by decide)).1 (by decide),
   (ref_wrapper_decision "Teacher" ["Teacher"] [] ⟨true, ""⟩
      (by decide) (by decide) (by decide)).2 (by decide)⟩

/-- C6: resolving pointer-to-T returns the identical schema as resolving T
itself, and a field of pointer type is never implicitly required (without an
explicit required directive it stays out of the required set even under
required-by-default). -/
theorem pointer_transparent :
    (∀ (reg : List String) (ov : List (String × String)) (te : TypeExpr),
      resolveExpr reg ov (.ptr te) = resolveExpr reg ov te) ∧
    (∀ requiredByDefault : Bool,
      fieldRequired requiredByDefault none true = false) := by
  constructor
  · intro reg ov te
    rfl
  · intro requiredByDefault
    simp [fieldRequired]

/-- A literal constant value (the corpus exercises string and integer
enumerations). -/
inductive Lit where
  | intVal (i : Int)
  | strVal (s : String)
deriving DecidableEq, Repr

/-- One constant bound to a named scalar type (spec data model): source
identifier, literal value, optional inline comment; the list position is the
ordinal (source order). -/
structure EnumValue where
  name : String
  value : Lit
  comment : Option String
deriving DecidableEq, Repr

/-- Modelled from the spec: the Enum Extractor's ordered value list, in
source order. -/
def enumValues (cs : List EnumValue) : List Lit :=
  cs.map EnumValue.value

/-- Modelled from the spec: the Enum Extractor's ordered description list,
positionally aligned with the value list, holding the empty string at every
position whose constant has no inline comment. -/
def enumDescriptions (cs : List EnumValue) : List String :=
  cs.map fun c => c.comment.getD ""

/-- Modelled from the spec: the Enum Extractor's name-to-comment map, holding
an entry only for identifiers that carry an inline comment. -/
def enumComments (cs : List EnumValue) : List (String × String) :=
  cs.filterMap fun c => c.comment.map fun m => (c.name, m)

/-- C8: the three auxiliary structures are parallel — values and descriptions
have the constants' length and source order, every description position holds
that constant's comment or the empty string, and the comment map holds an
entry exactly for the commented identifiers. -/
theorem enum_parallel_structures (cs : List EnumValue) :
    (enumValues cs).length = cs.length ∧
    (enumDescriptions cs).length = cs.length ∧
    (∀ i : Nat, (enumValues cs)[i]? = (cs[i]?).map EnumValue.value) ∧
    (∀ i : Nat, (enumDescriptions cs)[i]? =
      (cs[i]?).map fun c => c.comment.getD "") ∧
    (∀ nm cm : String, (nm, cm) ∈ enumComments cs ↔
      ∃ c ∈ cs, c.name = nm ∧ c.comment = some cm) := by
  refine ⟨by simp [enumValues], by simp [enumDescriptions], ?_, ?_, ?_⟩
  · intro i
    simp [enumValues]
  · intro i
    simp [enumDescriptions]
  · intro nm cm
    simp only [enumComments, List.mem_filterMap, Option.map_eq_some']
    constructor
    · rintro ⟨c, hc, m, hm, heq⟩
      injection heq with h1 h2
      exact ⟨c, hc, h1, h2 ▸ hm⟩
    · rintro ⟨c, hc, h1, h2⟩
      exact ⟨c, hc, cm, h2, by rw [h1]⟩

/-- The spec's enum example: `A=1 // first`, `B=2`, `C=3 // third`. -/
def exampleConsts : List EnumValue :=
  [⟨"A", .intVal 1, some "first"⟩, ⟨"B", .intVal 2, none⟩,
   ⟨"C", .intVal 3, some "third"⟩]

example : enumValues exampleConsts = [.intVal 1, .intVal 2, .intVal 3] := by
  decide

example : enumDescriptions exampleConsts = ["first", "", "third"] := by decide

example : enumComments exampleConsts = [("A", "first"), ("C", "third")] := by
  decide

/-- A member of a composite type as consumed by the property builder: a plain
field carrying its emitted name and resolved property, or an inline-embedded
composite carrying its promoted members; either may carry the ignore
directive. -/
inductive StructField where
  | plain (nm : String) (prop : PropNode) (ignored : Bool)
  | embedded (promoted : List (String × PropNode)) (ignored : Bool)
deriving DecidableEq, Repr

/-- Whether the field carries the ignore directive (`swaggerignore`). -/
def StructField.isIgnored : StructField → Bool
  | .plain _ _ ig => ig
  | .embedded _ ig => ig

/-- Modelled from the spec: an owner's own field enters the property map,
displacing any same-named entry spliced earlier from an embedding (embedding
is lowest priority). -/
def addOwnProp (props : List (String × PropNode)) (nm : String)
    (p : PropNode) : List (String × PropNode) :=
  (props.filter fun q => q.1 != nm) ++ [(nm, p)]

/-- Modelled from the spec: a promoted member from an embedding enters the
property map only when no property of that name exists yet. -/
def addEmbeddedProp (props : List (String × PropNode)) (nm : String)
    (p : PropNode) : List (String × PropNode) :=
  if props.any fun q => q.1 == nm then props else props ++ [(nm, p)]

/-- Modelled from the spec: processing one composite member — an ignored
field contributes nothing at all (and an ignored embedding promotes none of
its members); a live embedding splices its promoted members at lowest
priority; a live plain field enters under its emitted name. -/
def addFieldProps (props : List (String × PropNode)) :
    StructField → List (String × PropNode)
  | .plain nm p ig => if ig then props else addOwnProp props nm p
  | .embedded l ig =>
    if ig then props
    else l.foldl (fun ps q => addEmbeddedProp ps q.1 q.2) props

/-- Modelled from the spec: the owner's property map, synthesized over its
members in declaration order. -/
def buildProperties (fs : List StructField) : List (String × PropNode) :=
  fs.foldl addFieldProps []

theorem foldl_addFieldProps_filter (fs : List StructField) :
    ∀ init : List (String × PropNode),
      fs.foldl addFieldProps init =
        (fs.filter fun f => !f.isIgnored).foldl addFieldProps init := by
  induction fs with
  | nil => intro init; rfl
  | cons f fs ih =>
    intro init
    cases hig : f.isIgnored with
    | true =>
      have hstep : addFieldProps init f = init := by
        cases f with
        | plain nm p ig =>
          simp [StructField.isIgnored] at hig
          simp [addFieldProps, hig]
        | embedded l ig =>
          simp [StructField.isIgnored] at hig
          simp [addFieldProps, hig]
      simp only [List.foldl_cons, List.filter_cons, hig, Bool.not_true, hstep]
      exact ih init
    | false =>
      simp only [List.foldl_cons, List.filter_cons, hig, Bool.not_false]
      exact ih (addFieldProps init f)

/-- C9: an ignored field never contributes to the synthesized output — the
owner's property map equals the one computed with every ignored field (plain
or embedded, together with all its promoted members) removed outright. -/
theorem ignored_fields_absent (fs : List StructField) :
    buildProperties fs = buildProperties (fs.filter fun f => !f.isIgnored) :=
  foldl_addFieldProps_filter fs []

example :
    buildProperties
      [.plain "name" (.direct (.scalar "string") ⟨false, ""⟩) false,
       .embedded [("childName", .direct (.scalar "string") ⟨false, ""⟩)] true] =
    [("name", .direct (.scalar "string") ⟨false, ""⟩)] := by
  decide

end Swag
